import Mathlib

/-!
Verification of the measurement engine of the pm instrumentation library.

The development shallowly embeds the C++ sources:
  * include/pm/malloc_counter.hpp   — class MallocCounter
  * include/pm/malloc_callback.hpp  — class MallocCallback (static registry)
  * include/pm/phase.hpp            — class template Phase
  * include/pm/stopwatch.hpp        — class Stopwatch
  * src/malloc_override.cpp         — the allocator shim

C++ `intmax_t` / `uintmax_t` accumulators are modelled as unbounded
`Int` / `Nat`: signed overflow is undefined behaviour in C++ (so every
defined execution agrees with the unbounded model) and the unsigned
counters cannot wrap on any execution short of 2^64 tracked events.
Where wraparound is genuinely reachable semantics (the `size_t`
multiplication inside `calloc`) it is modelled explicitly with `% 2 ^ 64`.
-/

namespace pm

/-- State of a `pm::MallocCounter` (malloc_counter.hpp). The field
`registered_` is inherited from its base class `MallocCallback`
(malloc_callback.hpp, the per-instance flag); the remaining fields are
the members of `MallocCounter` itself: `active_`, the signed running
byte balance `current_` (`intmax_t`), the peak balance `peak_` and the
four event counters (`uintmax_t`). -/
structure MallocCounter where
  registered_ : Bool
  active_ : Bool
  current_ : Int
  peak_ : Nat
  alloc_num_ : Nat
  alloc_bytes_ : Nat
  free_num_ : Nat
  free_bytes_ : Nat
deriving Repr, DecidableEq

/-- The state of a freshly constructed `MallocCounter`: the constructor
sets `active_ = false`, `registered_ = false` and calls `reset()`. -/
def MallocCounter.init : MallocCounter :=
  { registered_ := false, active_ := false, current_ := 0, peak_ := 0,
    alloc_num_ := 0, alloc_bytes_ := 0, free_num_ := 0, free_bytes_ := 0 }

/-- MallocCounter::on_alloc (malloc_counter.hpp:99-105):
`current_ += bytes; if(current_ > 0) peak_ = std::max(peak_, (uintmax_t)current_);
++alloc_num_; alloc_bytes_ += bytes;`. The cast `(uintmax_t)current_` is
taken under the guard `current_ > 0`, hence equals `Int.toNat`. -/
def MallocCounter.on_alloc (mc : MallocCounter) (bytes : Nat) : MallocCounter :=
  let current : Int := mc.current_ + bytes
  { mc with
    current_ := current
    peak_ := if 0 < current then max mc.peak_ current.toNat else mc.peak_
    alloc_num_ := mc.alloc_num_ + 1
    alloc_bytes_ := mc.alloc_bytes_ + bytes }

/-- MallocCounter::on_free (malloc_counter.hpp:107-112):
`current_ -= bytes; ++free_num_; free_bytes_ += bytes;`. -/
def MallocCounter.on_free (mc : MallocCounter) (bytes : Nat) : MallocCounter :=
  { mc with
    current_ := mc.current_ - bytes
    free_num_ := mc.free_num_ + 1
    free_bytes_ := mc.free_bytes_ + bytes }

/-- MallocCounter::reset (malloc_counter.hpp:114-121): zeroes every
accumulator (the `active_` and `registered_` flags are untouched). -/
def MallocCounter.reset (mc : MallocCounter) : MallocCounter :=
  { mc with current_ := 0, peak_ := 0, alloc_num_ := 0, alloc_bytes_ := 0,
            free_num_ := 0, free_bytes_ := 0 }

/-- An allocation event as delivered by the interception registry:
either `on_alloc bytes` or `on_free bytes`. -/
inductive MallocEvent where
  | alloc (bytes : Nat)
  | free (bytes : Nat)
deriving Repr, DecidableEq

/-- Delivery of one event to a counter (dispatch of `on_alloc` / `on_free`). -/
def MallocCounter.applyEvent (mc : MallocCounter) (e : MallocEvent) : MallocCounter :=
  match e with
  | MallocEvent.alloc b => mc.on_alloc b
  | MallocEvent.free b => mc.on_free b

/-- Delivery of a sequence of events to a counter, oldest first. -/
def MallocCounter.run (mc : MallocCounter) (es : List MallocEvent) : MallocCounter :=
  es.foldl MallocCounter.applyEvent mc

/-- The counter state immediately after `start()` on a fresh counter:
`start()` (malloc_counter.hpp:157-160) calls `reset()` and then
`resume()`, which registers the callback and sets `active_ = true`;
every accumulator is zero. -/
def MallocCounter.afterStart : MallocCounter :=
  { registered_ := true, active_ := true, current_ := 0, peak_ := 0,
    alloc_num_ := 0, alloc_bytes_ := 0, free_num_ := 0, free_bytes_ := 0 }

/-- Total number of bytes reported by the alloc events of a sequence. -/
def allocSum : List MallocEvent → Nat
  | [] => 0
  | MallocEvent.alloc b :: es => b + allocSum es
  | MallocEvent.free _ :: es => allocSum es

/-- Total number of bytes reported by the free events of a sequence. -/
def freeSum : List MallocEvent → Nat
  | [] => 0
  | MallocEvent.alloc _ :: es => freeSum es
  | MallocEvent.free b :: es => b + freeSum es

theorem MallocCounter.run_cons (mc : MallocCounter) (e : MallocEvent) (es : List MallocEvent) :
    mc.run (e :: es) = (mc.applyEvent e).run es := rfl

theorem MallocCounter.run_append (mc : MallocCounter) (es fs : List MallocEvent) :
    mc.run (es ++ fs) = (mc.run es).run fs :=
  List.foldl_append ..

/-- The running balance after a sequence of events is the starting
balance plus the allocated bytes minus the freed bytes. -/
theorem MallocCounter.run_current (es : List MallocEvent) :
    ∀ mc : MallocCounter, (mc.run es).current_ = mc.current_ + allocSum es - freeSum es := by
  induction es with
  | nil => intro mc; simp [MallocCounter.run, allocSum, freeSum]
  | cons e es ih =>
    intro mc
    rw [MallocCounter.run_cons]
    cases e with
    | alloc b =>
      rw [ih]
      simp only [MallocCounter.applyEvent, MallocCounter.on_alloc, allocSum, freeSum]
      push_cast
      ring
    | free b =>
      rw [ih]
      simp only [MallocCounter.applyEvent, MallocCounter.on_free, allocSum, freeSum]
      push_cast
      ring

/-- A single event never decreases the peak. -/
theorem MallocCounter.applyEvent_peak_mono (mc : MallocCounter) (e : MallocEvent) :
    mc.peak_ ≤ (mc.applyEvent e).peak_ := by
  cases e with
  | alloc b =>
    simp only [MallocCounter.applyEvent, MallocCounter.on_alloc]
    split
    · exact le_max_left _ _
    · exact le_refl _
  | free b =>
    simp [MallocCounter.applyEvent, MallocCounter.on_free]

/-- A sequence of events never decreases the peak. -/
theorem MallocCounter.run_peak_mono (es : List MallocEvent) :
    ∀ mc : MallocCounter, mc.peak_ ≤ (mc.run es).peak_ := by
  induction es with
  | nil => intro mc; exact le_refl _
  | cons e es ih =>
    intro mc
    rw [MallocCounter.run_cons]
    exact le_trans (mc.applyEvent_peak_mono e) (ih _)

/-- If an event changes the peak, the balance after the event is positive. -/
theorem MallocCounter.applyEvent_peak_update (mc : MallocCounter) (e : MallocEvent) :
    (mc.applyEvent e).peak_ ≠ mc.peak_ → 0 < (mc.applyEvent e).current_ := by
  cases e with
  | alloc b =>
    simp only [MallocCounter.applyEvent, MallocCounter.on_alloc]
    intro h
    by_cases hpos : 0 < mc.current_ + (b : Int)
    · simpa using hpos
    · simp [hpos] at h
  | free b =>
    simp [MallocCounter.applyEvent, MallocCounter.on_free]

/-- Invariant: whenever the running balance is positive, the peak
dominates it. -/
def MallocCounter.PeakInv (mc : MallocCounter) : Prop :=
  0 < mc.current_ → mc.current_.toNat ≤ mc.peak_

theorem MallocCounter.applyEvent_peakInv (mc : MallocCounter) (e : MallocEvent)
    (h : mc.PeakInv) : (mc.applyEvent e).PeakInv := by
  cases e with
  | alloc b =>
    intro hpos
    simp only [MallocCounter.applyEvent, MallocCounter.on_alloc] at hpos ⊢
    rw [if_pos hpos]
    exact le_max_right _ _
  | free b =>
    intro hpos
    simp only [MallocCounter.applyEvent, MallocCounter.on_free] at hpos ⊢
    have h1 : 0 < mc.current_ := by omega
    have h2 := h h1
    omega

theorem MallocCounter.run_peakInv (es : List MallocEvent) :
    ∀ mc : MallocCounter, mc.PeakInv → (mc.run es).PeakInv := by
  induction es with
  | nil => intro mc h; exact h
  | cons e es ih =>
    intro mc h
    rw [MallocCounter.run_cons]
    exact ih _ (mc.applyEvent_peakInv e h)

/-- C1. For every sequence of allocate/free notifications delivered to an
active `MallocCounter` after `start()`: the closing balance `count()`
equals the sum of allocated bytes minus the sum of freed bytes (an `Int`,
so it may be negative); the peak is monotonically non-decreasing across
the sequence; the peak is updated by an event only when the running
balance after the event is positive; and the final peak dominates the
running balance of every prefix whose balance is positive. -/
theorem c1_allocation_balance (es : List MallocEvent) :
    (MallocCounter.afterStart.run es).current_ = (allocSum es : Int) - freeSum es
    ∧ (∀ n, n ≤ es.length →
        (MallocCounter.afterStart.run (es.take n)).peak_ ≤ (MallocCounter.afterStart.run es).peak_)
    ∧ (∀ (mc : MallocCounter) (e : MallocEvent),
        (mc.applyEvent e).peak_ ≠ mc.peak_ → 0 < (mc.applyEvent e).current_)
    ∧ (∀ n, n ≤ es.length → 0 < (MallocCounter.afterStart.run (es.take n)).current_ →
        ((MallocCounter.afterStart.run (es.take n)).current_).toNat
          ≤ (MallocCounter.afterStart.run es).peak_) := by
  have hsplit : ∀ n, MallocCounter.afterStart.run es
      = (MallocCounter.afterStart.run (es.take n)).run (es.drop n) := by
    intro n
    rw [← MallocCounter.run_append, List.take_append_drop]
  refine ⟨?_, ?_, ?_, ?_⟩
  · rw [MallocCounter.run_current]
    simp [MallocCounter.afterStart]
  · intro n _
    rw [hsplit n]
    exact MallocCounter.run_peak_mono _ _
  · exact MallocCounter.applyEvent_peak_update
  · intro n hn hpos
    have hinv : (MallocCounter.afterStart.run (es.take n)).PeakInv := by
      apply MallocCounter.run_peakInv
      intro h
      simp [MallocCounter.afterStart] at h
    calc ((MallocCounter.afterStart.run (es.take n)).current_).toNat
        ≤ (MallocCounter.afterStart.run (es.take n)).peak_ := hinv hpos
      _ ≤ (MallocCounter.afterStart.run es).peak_ := by
          rw [hsplit n]; exact MallocCounter.run_peak_mono _ _

/-- Witness for C1 at the concrete event sequence
[alloc 5, free 3, free 4]: the closing balance is 5 − 7 = −2 (negative),
and the prefix [alloc 5] has positive balance 5, which is dominated by
the final peak. -/
theorem c1_allocation_balance_witness :
    (MallocCounter.afterStart.run
        [MallocEvent.alloc 5, MallocEvent.free 3, MallocEvent.free 4]).current_ = -2
    ∧ ((MallocCounter.afterStart.run
        ([MallocEvent.alloc 5, MallocEvent.free 3, MallocEvent.free 4].take 1)).current_).toNat
        ≤ (MallocCounter.afterStart.run
            [MallocEvent.alloc 5, MallocEvent.free 3, MallocEvent.free 4]).peak_ := by
  have h := c1_allocation_balance [MallocEvent.alloc 5, MallocEvent.free 3, MallocEvent.free 4]
  exact ⟨by rw [h.1]; decide, h.2.2.2 1 (by decide) (by decide)⟩

/-- Number of occurrences of an instance in the registry list
(`std::vector<MallocCallback*>` holds instances by identity; identities
are modelled as naturals). -/
def countOcc : List Nat → Nat → Nat
  | [], _ => 0
  | x :: xs, i => (if x = i then 1 else 0) + countOcc xs i

/-- Removal of the first occurrence, as performed by
`std::find` + `std::vector::erase` in `unregister_callback`
(malloc_callback.hpp:69-79). -/
def eraseFirst : List Nat → Nat → List Nat
  | [], _ => []
  | x :: xs, i => if x = i then xs else x :: eraseFirst xs i

theorem countOcc_eq_zero (l : List Nat) (i : Nat) : countOcc l i = 0 ↔ i ∉ l := by
  induction l with
  | nil => simp [countOcc]
  | cons x xs ih =>
    by_cases h : x = i
    · subst h
      simp [countOcc]
    · simp [countOcc, h, ih, Ne.symm h]

theorem countOcc_append (l m : List Nat) (i : Nat) :
    countOcc (l ++ m) i = countOcc l i + countOcc m i := by
  induction l with
  | nil => simp [countOcc]
  | cons x xs ih => simp [countOcc, ih]; omega

theorem countOcc_eraseFirst_self (l : List Nat) (i : Nat) :
    countOcc (eraseFirst l i) i = countOcc l i - 1 := by
  induction l with
  | nil => simp [countOcc, eraseFirst]
  | cons x xs ih =>
    by_cases h : x = i
    · simp [countOcc, eraseFirst, h]
    · simp [countOcc, eraseFirst, h, ih]

theorem countOcc_eraseFirst_ne (l : List Nat) (i j : Nat) (h : j ≠ i) :
    countOcc (eraseFirst l i) j = countOcc l j := by
  induction l with
  | nil => simp [eraseFirst]
  | cons x xs ih =>
    by_cases hx : x = i
    · subst hx
      simp [countOcc, eraseFirst, Ne.symm h]
    · simp [countOcc, eraseFirst, hx, ih]

theorem eraseFirst_of_not_mem (l : List Nat) (i : Nat) (h : i ∉ l) :
    eraseFirst l i = l := by
  induction l with
  | nil => rfl
  | cons x xs ih =>
    simp only [List.mem_cons, not_or] at h
    simp [eraseFirst, Ne.symm h.1, ih h.2]

/-- The process-wide state of the allocator interception machinery
(malloc_callback.hpp): the static members
`MallocCallback::registry_` (list of registered instances, in
registration order) and `MallocCallback::critical_` (the re-entrancy
guard), together with the state of every `MallocCounter` instance,
addressed by identity. -/
structure MallocSystem where
  counters : Nat → MallocCounter
  registry_ : List Nat
  critical_ : Bool

/-- A fresh process state: empty registry, guard clear, every counter
freshly constructed. -/
def MallocSystem.init : MallocSystem :=
  { counters := fun _ => MallocCounter.init, registry_ := [], critical_ := false }

/-- MallocCallback::register_callback (malloc_callback.hpp:58-67):
`if(!registered_) { critical_ = true; registry_.push_back(this);
registered_ = true; critical_ = false; }`. The net state effect of the
guarded block is recorded; the intermediate guard window is modelled by
`registerTrace` below. -/
def MallocSystem.register_callback (s : MallocSystem) (i : Nat) : MallocSystem :=
  if (s.counters i).registered_ then s
  else
    { counters := fun j => if j = i then { s.counters j with registered_ := true } else s.counters j,
      registry_ := s.registry_ ++ [i],
      critical_ := false }

/-- MallocCallback::unregister_callback (malloc_callback.hpp:69-79):
`critical_ = true; auto it = std::find(...); if(it != registry_.end())
registry_.erase(it); registered_ = false; critical_ = false;`. -/
def MallocSystem.unregister_callback (s : MallocSystem) (i : Nat) : MallocSystem :=
  { counters := fun j => if j = i then { s.counters j with registered_ := false } else s.counters j,
    registry_ := eraseFirst s.registry_ i,
    critical_ := false }

/-- MallocCallback::~MallocCallback (malloc_callback.hpp:123-125): the
destructor calls `unregister_callback()`. -/
def MallocSystem.destruct (s : MallocSystem) (i : Nat) : MallocSystem :=
  s.unregister_callback i

/-- The dispatch loop of the static notifiers:
`for(auto cb : registry_) cb->on_alloc(bytes);`, applied front to back. -/
def dispatchAlloc (bytes : Nat) : List Nat → (Nat → MallocCounter) → (Nat → MallocCounter)
  | [], cs => cs
  | i :: rest, cs =>
      dispatchAlloc bytes rest (fun j => if j = i then (cs i).on_alloc bytes else cs j)

/-- The dispatch loop of `notify_free`. -/
def dispatchFree (bytes : Nat) : List Nat → (Nat → MallocCounter) → (Nat → MallocCounter)
  | [], cs => cs
  | i :: rest, cs =>
      dispatchFree bytes rest (fun j => if j = i then (cs i).on_free bytes else cs j)

/-- MallocCallback::notify_malloc (malloc_callback.hpp:101-106):
`if(critical_) return; for(auto cb : registry_) cb->on_alloc(bytes);`. -/
def MallocSystem.notify_malloc (s : MallocSystem) (bytes : Nat) : MallocSystem :=
  if s.critical_ then s
  else { s with counters := dispatchAlloc bytes s.registry_ s.counters }

/-- MallocCallback::notify_free (malloc_callback.hpp:113-118). -/
def MallocSystem.notify_free (s : MallocSystem) (bytes : Nat) : MallocSystem :=
  if s.critical_ then s
  else { s with counters := dispatchFree bytes s.registry_ s.counters }

/-- MallocCounter::pause (malloc_counter.hpp:165-170):
`if(active_) { unregister_callback(); active_ = false; }`. -/
def MallocSystem.pause (s : MallocSystem) (i : Nat) : MallocSystem :=
  if (s.counters i).active_ then
    let s' := s.unregister_callback i
    { s' with counters := fun j => if j = i then { s'.counters j with active_ := false } else s'.counters j }
  else s

/-- MallocCounter::resume (malloc_counter.hpp:175-180):
`if(!active_) { register_callback(); active_ = true; }`. -/
def MallocSystem.resume (s : MallocSystem) (i : Nat) : MallocSystem :=
  if (s.counters i).active_ then s
  else
    let s' := s.register_callback i
    { s' with counters := fun j => if j = i then { s'.counters j with active_ := true } else s'.counters j }

/-- MallocCounter::start (malloc_counter.hpp:157-160): `reset(); resume();`. -/
def MallocSystem.start (s : MallocSystem) (i : Nat) : MallocSystem :=
  MallocSystem.resume
    { s with counters := fun j => if j = i then (s.counters j).reset else s.counters j } i

/-- MallocCounter::stop (malloc_counter.hpp:185-187): `pause();`. -/
def MallocSystem.stop (s : MallocSystem) (i : Nat) : MallocSystem :=
  s.pause i

/-- Delivery of a whole event sequence through the static notifiers. -/
def MallocSystem.runNotifs (s : MallocSystem) : List MallocEvent → MallocSystem
  | [] => s
  | MallocEvent.alloc b :: es => (s.notify_malloc b).runNotifs es
  | MallocEvent.free b :: es => (s.notify_free b).runNotifs es

/-- Micro-events of one registry operation, in program order: writes of
the re-entrancy guard `critical_`, mutations of the listener list
`registry_`, and dispatches of a notification to a listener. -/
inductive RegAction where
  | setFlag
  | clearFlag
  | mutateList
  | dispatchAlloc (listener : Nat) (bytes : Nat)
  | dispatchFree (listener : Nat) (bytes : Nat)
deriving Repr, DecidableEq

/-- Micro-event sequence of `register_callback` (malloc_callback.hpp:58-67):
nothing when already registered, otherwise
`critical_ = true; registry_.push_back(this); ...; critical_ = false;`. -/
def registerTrace (s : MallocSystem) (i : Nat) : List RegAction :=
  if (s.counters i).registered_ then []
  else [RegAction.setFlag, RegAction.mutateList, RegAction.clearFlag]

/-- Micro-event sequence of `unregister_callback`
(malloc_callback.hpp:69-79): the guard is always set and cleared; the
list is mutated (erased from) exactly when `std::find` succeeds. -/
def unregisterTrace (s : MallocSystem) (i : Nat) : List RegAction :=
  [RegAction.setFlag]
    ++ (if i ∈ s.registry_ then [RegAction.mutateList] else [])
    ++ [RegAction.clearFlag]

/-- Micro-event sequence of `notify_malloc` (malloc_callback.hpp:101-106):
empty when the guard is set (immediate return), otherwise one dispatch
per registered listener, in registration order; the guard is never
written. -/
def notifyMallocTrace (s : MallocSystem) (bytes : Nat) : List RegAction :=
  if s.critical_ then []
  else s.registry_.map (fun i => RegAction.dispatchAlloc i bytes)

/-- Micro-event sequence of `notify_free` (malloc_callback.hpp:113-118). -/
def notifyFreeTrace (s : MallocSystem) (bytes : Nat) : List RegAction :=
  if s.critical_ then []
  else s.registry_.map (fun i => RegAction.dispatchFree i bytes)

/-- C2. If the re-entrancy guard is set, `notify_malloc`/`notify_free`
dispatch to no listener and leave the whole state unchanged (the
notification is dropped, never queued). If the guard is clear, the
notification is dispatched to every currently registered listener in
registration order. The guard is set exactly around the list mutations
of `register_callback`/`unregister_callback` (their traces are either
empty or of the form setFlag … clearFlag with any list mutation strictly
inside), and notify dispatch performs no guard write and no list
mutation. -/
theorem c2_reentrancy_guard (s : MallocSystem) (i : Nat) (b : Nat) :
    (s.critical_ = true →
      s.notify_malloc b = s ∧ s.notify_free b = s
      ∧ notifyMallocTrace s b = [] ∧ notifyFreeTrace s b = [])
    ∧ (s.critical_ = false →
      notifyMallocTrace s b = s.registry_.map (fun j => RegAction.dispatchAlloc j b)
      ∧ notifyFreeTrace s b = s.registry_.map (fun j => RegAction.dispatchFree j b))
    ∧ (registerTrace s i = []
      ∨ registerTrace s i = [RegAction.setFlag, RegAction.mutateList, RegAction.clearFlag])
    ∧ (unregisterTrace s i = [RegAction.setFlag, RegAction.clearFlag]
      ∨ unregisterTrace s i = [RegAction.setFlag, RegAction.mutateList, RegAction.clearFlag])
    ∧ (∀ a ∈ notifyMallocTrace s b, ∃ j, a = RegAction.dispatchAlloc j b)
    ∧ (∀ a ∈ notifyFreeTrace s b, ∃ j, a = RegAction.dispatchFree j b) := by
  refine ⟨?_, ?_, ?_, ?_, ?_, ?_⟩
  · intro h
    simp [MallocSystem.notify_malloc, MallocSystem.notify_free,
      notifyMallocTrace, notifyFreeTrace, h]
  · intro h
    simp [notifyMallocTrace, notifyFreeTrace, h]
  · by_cases h : (s.counters i).registered_ <;> simp [registerTrace, h]
  · by_cases h : i ∈ s.registry_ <;> simp [unregisterTrace, h]
  · intro a ha
    simp only [notifyMallocTrace] at ha
    split at ha
    · exact absurd ha (List.not_mem_nil a)
    · rcases List.mem_map.mp ha with ⟨j, _, hj⟩
      exact ⟨j, hj.symm⟩
  · intro a ha
    simp only [notifyFreeTrace] at ha
    split at ha
    · exact absurd ha (List.not_mem_nil a)
    · rcases List.mem_map.mp ha with ⟨j, _, hj⟩
      exact ⟨j, hj.symm⟩

/-- Witness for C2: in a state with the guard set, a notification of 5
bytes is dropped; in the fresh state (guard clear, listener 0 registered
first, listener 1 second) the dispatch trace lists listener 0 before
listener 1. -/
theorem c2_reentrancy_guard_witness :
    ({ MallocSystem.init with critical_ := true } : MallocSystem).notify_malloc 5
      = { MallocSystem.init with critical_ := true }
    ∧ notifyMallocTrace { MallocSystem.init with registry_ := [0, 1] } 5
      = [RegAction.dispatchAlloc 0 5, RegAction.dispatchAlloc 1 5] := by
  refine ⟨(c2_reentrancy_guard { MallocSystem.init with critical_ := true } 0 5).1 rfl |>.1, ?_⟩
  have h := (c2_reentrancy_guard { MallocSystem.init with registry_ := [0, 1] } 0 5).2.1 rfl
  rw [h.1]
  rfl

/-- Invariant of the interception registry: an instance's `registered_`
flag is `true` exactly when the instance appears exactly once in
`registry_` (and `false` exactly when it does not appear at all). -/
def RegistryInv (s : MallocSystem) : Prop :=
  ∀ j, countOcc s.registry_ j = if (s.counters j).registered_ then 1 else 0

theorem registryInv_init : RegistryInv MallocSystem.init := by
  intro j
  simp [MallocSystem.init, countOcc, MallocCounter.init]

theorem register_callback_inv (s : MallocSystem) (i : Nat) (h : RegistryInv s) :
    RegistryInv (s.register_callback i) := by
  intro j
  by_cases hr : (s.counters i).registered_
  · simpa [MallocSystem.register_callback, hr] using h j
  · by_cases hj : j = i
    · subst hj
      have hz := h j
      simp only [hr, if_false, Bool.false_eq_true] at hz
      simp [MallocSystem.register_callback, hr, countOcc_append, countOcc, hz]
    · have hz := h j
      simp [MallocSystem.register_callback, hr, countOcc_append, countOcc, hj, hz]
      omega

theorem unregister_callback_inv (s : MallocSystem) (i : Nat) (h : RegistryInv s) :
    RegistryInv (s.unregister_callback i) := by
  intro j
  by_cases hj : j = i
  · subst hj
    have hz := h j
    simp only [MallocSystem.unregister_callback, countOcc_eraseFirst_self, hz]
    split at hz <;> simp_all
  · have hz := h j
    simp [MallocSystem.unregister_callback, countOcc_eraseFirst_ne _ _ _ hj, hj, hz]

/-- C10. The registry invariant — `registered_` is `true` exactly when
the instance occurs exactly once in the process-wide registry list — is
preserved by `register_callback`, by `unregister_callback` and by the
destructor (which calls `unregister_callback`); after destruction the
instance no longer occurs in the registry; and unregistering an instance
that is not in the registry leaves the registry list unchanged. -/
theorem c10_registry_invariant (s : MallocSystem) (i : Nat) (h : RegistryInv s) :
    (∀ j, ((s.counters j).registered_ = true ↔ countOcc s.registry_ j = 1)
      ∧ ((s.counters j).registered_ = false ↔ j ∉ s.registry_))
    ∧ RegistryInv (s.register_callback i)
    ∧ RegistryInv (s.unregister_callback i)
    ∧ RegistryInv (s.destruct i)
    ∧ ((s.destruct i).counters i).registered_ = false
    ∧ i ∉ (s.destruct i).registry_
    ∧ (i ∉ s.registry_ → (s.unregister_callback i).registry_ = s.registry_) := by
  refine ⟨?_, register_callback_inv s i h, unregister_callback_inv s i h,
    unregister_callback_inv s i h, ?_, ?_, ?_⟩
  · intro j
    have hz := h j
    constructor
    · constructor
      · intro hr; simpa [hr] using hz
      · intro hc
        by_contra hr
        simp only [Bool.not_eq_true] at hr
        simp [hr] at hz
        omega
    · constructor
      · intro hr
        rw [← countOcc_eq_zero]
        simpa [hr] using hz
      · intro hm
        rw [← countOcc_eq_zero] at hm
        by_contra hr
        simp only [Bool.not_eq_false] at hr
        simp [hr] at hz
        omega
  · simp [MallocSystem.destruct, MallocSystem.unregister_callback]
  · have hz := h i
    rw [← countOcc_eq_zero]
    simp only [MallocSystem.destruct, MallocSystem.unregister_callback,
      countOcc_eraseFirst_self, hz]
    split <;> omega
  · intro hm
    simp [MallocSystem.unregister_callback, eraseFirst_of_not_mem _ _ hm]

/-- Witness for C10 at the fresh process state and instance 0. -/
theorem c10_registry_invariant_witness :
    RegistryInv (MallocSystem.init.register_callback 0)
    ∧ 0 ∉ (MallocSystem.init.destruct 0).registry_ := by
  have h := c10_registry_invariant MallocSystem.init 0 registryInv_init
  exact ⟨h.2.1, h.2.2.2.2.2.1⟩

theorem dispatchAlloc_not_mem (b : Nat) :
    ∀ (l : List Nat) (cs : Nat → MallocCounter) (i : Nat), i ∉ l →
      dispatchAlloc b l cs i = cs i := by
  intro l
  induction l with
  | nil => intro cs i _; rfl
  | cons x xs ih =>
    intro cs i hi
    simp only [List.mem_cons, not_or] at hi
    simp [dispatchAlloc, ih _ _ hi.2, hi.1]

theorem dispatchFree_not_mem (b : Nat) :
    ∀ (l : List Nat) (cs : Nat → MallocCounter) (i : Nat), i ∉ l →
      dispatchFree b l cs i = cs i := by
  intro l
  induction l with
  | nil => intro cs i _; rfl
  | cons x xs ih =>
    intro cs i hi
    simp only [List.mem_cons, not_or] at hi
    simp [dispatchFree, ih _ _ hi.2, hi.1]

theorem notify_malloc_empty (s : MallocSystem) (b : Nat) (h : s.registry_ = []) :
    s.notify_malloc b = s := by
  obtain ⟨cs, reg, cr⟩ := s
  simp only at h
  subst h
  unfold MallocSystem.notify_malloc
  split
  · rfl
  · rfl

theorem notify_free_empty (s : MallocSystem) (b : Nat) (h : s.registry_ = []) :
    s.notify_free b = s := by
  obtain ⟨cs, reg, cr⟩ := s
  simp only at h
  subst h
  unfold MallocSystem.notify_free
  split
  · rfl
  · rfl

theorem runNotifs_empty_registry :
    ∀ (es : List MallocEvent) (s : MallocSystem), s.registry_ = [] →
      s.runNotifs es = s := by
  intro es
  induction es with
  | nil => intro s _; rfl
  | cons e es ih =>
    intro s h
    cases e with
    | alloc b =>
      show (s.notify_malloc b).runNotifs es = s
      rw [notify_malloc_empty s b h]
      exact ih s h
    | free b =>
      show (s.notify_free b).runNotifs es = s
      rw [notify_free_empty s b h]
      exact ih s h

/-- C6. A paused (or stopped) `MallocCounter` is not affected by
notifications: a counter that is not in the registry is left unchanged by
`notify_malloc`/`notify_free`; `pause` (and `stop`, which is `pause`)
retains every accumulator value held at the moment of pausing; under the
registry invariant a paused counter is no longer in the registry; and a
counter that is started and immediately paused reports `count() = 0` and
`peak() = 0` no matter which notifications are delivered during the
pause. -/
theorem c6_pause_exactness (s : MallocSystem) (i : Nat) (b : Nat) (es : List MallocEvent) :
    (i ∉ s.registry_ →
      (s.notify_malloc b).counters i = s.counters i
      ∧ (s.notify_free b).counters i = s.counters i)
    ∧ (((s.pause i).counters i).current_ = (s.counters i).current_
      ∧ ((s.pause i).counters i).peak_ = (s.counters i).peak_
      ∧ ((s.pause i).counters i).alloc_num_ = (s.counters i).alloc_num_
      ∧ ((s.pause i).counters i).alloc_bytes_ = (s.counters i).alloc_bytes_
      ∧ ((s.pause i).counters i).free_num_ = (s.counters i).free_num_
      ∧ ((s.pause i).counters i).free_bytes_ = (s.counters i).free_bytes_)
    ∧ s.stop i = s.pause i
    ∧ (RegistryInv s → (s.counters i).registered_ = (s.counters i).active_ →
        i ∉ (s.pause i).registry_)
    ∧ ((((MallocSystem.init.start i).pause i).runNotifs es).counters i).current_ = 0
    ∧ ((((MallocSystem.init.start i).pause i).runNotifs es).counters i).peak_ = 0 := by
  have hreg : ((MallocSystem.init.start i).pause i).registry_ = [] := by
    simp [MallocSystem.start, MallocSystem.resume, MallocSystem.register_callback,
      MallocSystem.pause, MallocSystem.unregister_callback, MallocSystem.init,
      MallocCounter.init, MallocCounter.reset, eraseFirst]
  have hrun := runNotifs_empty_registry es _ hreg
  refine ⟨?_, ?_, rfl, ?_, ?_, ?_⟩
  · intro hm
    constructor
    · unfold MallocSystem.notify_malloc
      split
      · rfl
      · exact dispatchAlloc_not_mem b s.registry_ s.counters i hm
    · unfold MallocSystem.notify_free
      split
      · rfl
      · exact dispatchFree_not_mem b s.registry_ s.counters i hm
  · by_cases ha : (s.counters i).active_ = true
    · simp [MallocSystem.pause, ha, MallocSystem.unregister_callback]
    · have ha' : (s.counters i).active_ = false := by simpa using ha
      simp [MallocSystem.pause, ha']
  · intro hinv heq
    rw [← countOcc_eq_zero]
    by_cases ha : (s.counters i).active_ = true
    · have hr : (s.counters i).registered_ = true := by rw [heq]; exact ha
      have hz := hinv i
      rw [hr] at hz
      simp only [if_true] at hz
      simp [MallocSystem.pause, ha, MallocSystem.unregister_callback,
        countOcc_eraseFirst_self, hz]
    · have ha' : (s.counters i).active_ = false := by simpa using ha
      have hr : (s.counters i).registered_ = false := by rw [heq]; exact ha'
      have hz := hinv i
      rw [hr] at hz
      simp only [Bool.false_eq_true, if_false] at hz
      simp [MallocSystem.pause, ha', hz]
  · rw [hrun]
    simp [MallocSystem.start, MallocSystem.resume, MallocSystem.register_callback,
      MallocSystem.pause, MallocSystem.unregister_callback, MallocSystem.init,
      MallocCounter.init, MallocCounter.reset]
  · rw [hrun]
    simp [MallocSystem.start, MallocSystem.resume, MallocSystem.register_callback,
      MallocSystem.pause, MallocSystem.unregister_callback, MallocSystem.init,
      MallocCounter.init, MallocCounter.reset]

/-- Witness for C6: in the fresh state, counter 0 is unaffected by a
5-byte allocation notification, and after start-then-pause followed by a
7-byte allocation notification its balance is still 0. -/
theorem c6_pause_exactness_witness :
    (MallocSystem.init.notify_malloc 5).counters 0 = MallocSystem.init.counters 0
    ∧ ((((MallocSystem.init.start 0).pause 0).runNotifs
        [MallocEvent.alloc 7]).counters 0).current_ = 0 := by
  have h := c6_pause_exactness MallocSystem.init 0 5 [MallocEvent.alloc 7]
  exact ⟨(h.1 (by simp [MallocSystem.init])).1, h.2.2.2.2.1⟩

/-- C9. `pause` and `resume` are idempotent in every state: `pause` on an
inactive counter (including one never started) is a complete no-op,
`resume` on an active counter is a complete no-op, and `pause; pause` /
`resume; resume` leave the same state as a single call. -/
theorem c9_pause_resume_idempotent (s : MallocSystem) (i : Nat) :
    ((s.counters i).active_ = false → s.pause i = s)
    ∧ ((s.counters i).active_ = true → s.resume i = s)
    ∧ (s.pause i).pause i = s.pause i
    ∧ (s.resume i).resume i = s.resume i := by
  have hp : ∀ t : MallocSystem, (t.counters i).active_ = false → t.pause i = t := by
    intro t ht
    simp [MallocSystem.pause, ht]
  have hr : ∀ t : MallocSystem, (t.counters i).active_ = true → t.resume i = t := by
    intro t ht
    simp [MallocSystem.resume, ht]
  refine ⟨hp s, hr s, ?_, ?_⟩
  · by_cases ha : (s.counters i).active_ = true
    · apply hp
      simp [MallocSystem.pause, ha, MallocSystem.unregister_callback]
    · have ha' : (s.counters i).active_ = false := by simpa using ha
      rw [hp s ha']
      exact hp s ha'
  · by_cases ha : (s.counters i).active_ = true
    · rw [hr s ha]
      exact hr s ha
    · apply hr
      have ha' : (s.counters i).active_ = false := by simpa using ha
      simp [MallocSystem.resume, ha', MallocSystem.register_callback]

/-- Witness for C9 at the fresh state and counter 0: pausing a
never-started counter is a no-op, and a second resume after a first is a
no-op. -/
theorem c9_pause_resume_idempotent_witness :
    MallocSystem.init.pause 0 = MallocSystem.init
    ∧ (MallocSystem.init.resume 0).resume 0 = MallocSystem.init.resume 0 := by
  have h := c9_pause_resume_idempotent MallocSystem.init 0
  exact ⟨h.1 rfl, h.2.2.2⟩

/-- A JSON-like tree value modelling `nlohmann::json` (the opaque
structured-document collaborator used by phase.hpp and json.hpp).
Objects are ordered key/value lists written via `setKey` below. -/
inductive Json where
  | null
  | int (n : Int)
  | str (s : String)
  | arr (elems : List Json)
  | obj (fields : List (String × Json))

/-- Key constants from include/pm/json.hpp. -/
def JSON_KEY_CHILDREN : String := "children"

def JSON_KEY_DATA : String := "data"

def JSON_KEY_METRICS : String := "metrics"

def JSON_KEY_NAME : String := "name"

/-- Assignment `json[key] = value` on an object: overwrite the binding if
the key is present, append it otherwise. -/
def setKey : List (String × Json) → String → Json → List (String × Json)
  | [], k, v => [(k, v)]
  | (k', v') :: rest, k, v =>
      if k' = k then (k, v) :: rest else (k', v') :: setKey rest k v

/-- Read access `json[key]` on an object's field list. -/
def lookupField : List (String × Json) → String → Option Json
  | [], _ => none
  | (k', v) :: rest, k => if k' = k then some v else lookupField rest k

/-- Read access on a document: a field lookup on an object, nothing on
any other value. -/
def Json.getKey : Json → String → Option Json
  | Json.obj fields, k => lookupField fields k
  | _, _ => none

/-- State of a `pm::Phase<M...>` (phase.hpp:49-56): the meter tuple
`meters_` (modelled as a list over an abstract meter type `α`, in
declaration order), the name `name_`, the free-form JSON attachment
`data_` (its object fields; a default-constructed `nlohmann::json` is
empty) and the finalized child documents `children_`. -/
structure Phase (α : Type) where
  meters_ : List α
  name_ : String
  data_ : List (String × Json)
  children_ : List Json

/-- One meter lifecycle operation, as invoked by a phase on a meter. -/
inductive MeterOp where
  | start
  | pause
  | resume
  | stop
deriving Repr, DecidableEq

/-- Phase::start_meters (phase.hpp:85-91): for `I = 0 … n-1` in
increasing order, invoke `get<I>().start()`. The result is the list of
invocations performed, in order. -/
def start_meters (ms : List α) (i : Nat) (_h : i ≤ ms.length) : List (MeterOp × α) :=
  if hlt : i < ms.length then
    (MeterOp.start, ms.get ⟨i, hlt⟩) :: start_meters ms (i + 1) hlt
  else []
termination_by ms.length - i

/-- Phase::pause_meters (phase.hpp:93-99): for `I = n … 1` in decreasing
order, invoke `get<I-1>().pause()`. -/
def pause_meters (ms : List α) : (i : Nat) → i ≤ ms.length → List (MeterOp × α)
  | 0, _ => []
  | i + 1, h => (MeterOp.pause, ms.get ⟨i, h⟩) :: pause_meters ms i (Nat.le_of_succ_le h)

/-- Phase::resume_meters (phase.hpp:101-107): increasing order. -/
def resume_meters (ms : List α) (i : Nat) (_h : i ≤ ms.length) : List (MeterOp × α) :=
  if hlt : i < ms.length then
    (MeterOp.resume, ms.get ⟨i, hlt⟩) :: resume_meters ms (i + 1) hlt
  else []
termination_by ms.length - i

/-- Phase::stop_meters (phase.hpp:109-115): decreasing order. -/
def stop_meters (ms : List α) : (i : Nat) → i ≤ ms.length → List (MeterOp × α)
  | 0, _ => []
  | i + 1, h => (MeterOp.stop, ms.get ⟨i, h⟩) :: stop_meters ms i (Nat.le_of_succ_le h)

/-- Phase::start (phase.hpp:157-159): `start_meters()`, i.e.
`start_meters<0>()`. Modelled as the invocation trace it performs. -/
def Phase.start (p : Phase α) : List (MeterOp × α) :=
  start_meters p.meters_ 0 (Nat.zero_le _)

/-- Phase::pause (phase.hpp:164-166): `pause_meters()`, i.e.
`pause_meters<num_meters()>()`. -/
def Phase.pause (p : Phase α) : List (MeterOp × α) :=
  pause_meters p.meters_ p.meters_.length (Nat.le_refl _)

/-- Phase::resume (phase.hpp:171-173). -/
def Phase.resume (p : Phase α) : List (MeterOp × α) :=
  resume_meters p.meters_ 0 (Nat.zero_le _)

/-- Phase::stop (phase.hpp:178-180). -/
def Phase.stop (p : Phase α) : List (MeterOp × α) :=
  stop_meters p.meters_ p.meters_.length (Nat.le_refl _)

theorem start_meters_eq (ms : List α) :
    ∀ (k i : Nat) (h : i ≤ ms.length), ms.length - i = k →
      start_meters ms i h = (ms.drop i).map (fun m => (MeterOp.start, m)) := by
  intro k
  induction k with
  | zero =>
    intro i h hk
    have hi : i = ms.length := by omega
    rw [start_meters]
    rw [dif_neg (by omega)]
    rw [hi, List.drop_length]
    rfl
  | succ k ih =>
    intro i h hk
    have hlt : i < ms.length := by omega
    rw [start_meters]
    rw [dif_pos hlt]
    rw [ih (i + 1) hlt (by omega)]
    rw [List.drop_eq_getElem_cons hlt]
    rfl

theorem resume_meters_eq (ms : List α) :
    ∀ (k i : Nat) (h : i ≤ ms.length), ms.length - i = k →
      resume_meters ms i h = (ms.drop i).map (fun m => (MeterOp.resume, m)) := by
  intro k
  induction k with
  | zero =>
    intro i h hk
    have hi : i = ms.length := by omega
    rw [resume_meters]
    rw [dif_neg (by omega)]
    rw [hi, List.drop_length]
    rfl
  | succ k ih =>
    intro i h hk
    have hlt : i < ms.length := by omega
    rw [resume_meters]
    rw [dif_pos hlt]
    rw [ih (i + 1) hlt (by omega)]
    rw [List.drop_eq_getElem_cons hlt]
    rfl

theorem pause_meters_eq (ms : List α) :
    ∀ (i : Nat) (h : i ≤ ms.length),
      pause_meters ms i h = ((ms.take i).reverse).map (fun m => (MeterOp.pause, m)) := by
  intro i
  induction i with
  | zero => intro h; rfl
  | succ i ih =>
    intro h
    rw [pause_meters, ih (Nat.le_of_succ_le h)]
    have : ms.take (i + 1) = ms.take i ++ [ms.get ⟨i, h⟩] := by
      rw [← List.take_concat_get ms i (by omega)]
      simp [List.concat_eq_append]
    rw [this, List.reverse_append]
    rfl

theorem stop_meters_eq (ms : List α) :
    ∀ (i : Nat) (h : i ≤ ms.length),
      stop_meters ms i h = ((ms.take i).reverse).map (fun m => (MeterOp.stop, m)) := by
  intro i
  induction i with
  | zero => intro h; rfl
  | succ i ih =>
    intro h
    rw [stop_meters, ih (Nat.le_of_succ_le h)]
    have : ms.take (i + 1) = ms.take i ++ [ms.get ⟨i, h⟩] := by
      rw [← List.take_concat_get ms i (by omega)]
      simp [List.concat_eq_append]
    rw [this, List.reverse_append]
    rfl

/-- C3. For a phase with declared meters `[M1, …, Mn]`, `start` and
`resume` invoke the operation on the meters in declaration order (M1
first, Mn last), while `pause` and `stop` invoke it in reverse
declaration order (Mn first, M1 last); in particular for meters `[A, B]`
start/resume invoke A before B and pause/stop invoke B before A. -/
theorem c3_meter_order {α : Type} (p : Phase α) (a b : α) :
    p.start = p.meters_.map (fun m => (MeterOp.start, m))
    ∧ p.resume = p.meters_.map (fun m => (MeterOp.resume, m))
    ∧ p.pause = p.meters_.reverse.map (fun m => (MeterOp.pause, m))
    ∧ p.stop = p.meters_.reverse.map (fun m => (MeterOp.stop, m))
    ∧ (Phase.start ⟨[a, b], "", [], []⟩ = [(MeterOp.start, a), (MeterOp.start, b)]
      ∧ Phase.resume ⟨[a, b], "", [], []⟩ = [(MeterOp.resume, a), (MeterOp.resume, b)]
      ∧ Phase.pause ⟨[a, b], "", [], []⟩ = [(MeterOp.pause, b), (MeterOp.pause, a)]
      ∧ Phase.stop ⟨[a, b], "", [], []⟩ = [(MeterOp.stop, b), (MeterOp.stop, a)]) := by
  have hs : ∀ (q : Phase α), q.start = q.meters_.map (fun m => (MeterOp.start, m)) := by
    intro q
    rw [Phase.start, start_meters_eq q.meters_ q.meters_.length 0 (Nat.zero_le _) (by omega)]
    rw [List.drop_zero]
  have hr : ∀ (q : Phase α), q.resume = q.meters_.map (fun m => (MeterOp.resume, m)) := by
    intro q
    rw [Phase.resume, resume_meters_eq q.meters_ q.meters_.length 0 (Nat.zero_le _) (by omega)]
    rw [List.drop_zero]
  have hp : ∀ (q : Phase α), q.pause = q.meters_.reverse.map (fun m => (MeterOp.pause, m)) := by
    intro q
    rw [Phase.pause, pause_meters_eq q.meters_ q.meters_.length (Nat.le_refl _)]
    rw [List.take_length]
  have ht : ∀ (q : Phase α), q.stop = q.meters_.reverse.map (fun m => (MeterOp.stop, m)) := by
    intro q
    rw [Phase.stop, stop_meters_eq q.meters_ q.meters_.length (Nat.le_refl _)]
    rw [List.take_length]
  exact ⟨hs p, hr p, hp p, ht p,
    by rw [hs]; rfl, by rw [hr]; rfl, by rw [hp]; rfl, by rw [ht]; rfl⟩

/-- Phase::gather_metrics (phase.hpp:117-124): for `I = 0 … n-1`,
`metrics[m.key()] = m.gather_metrics();` on the accumulating object. The
abstract meter interface is the pair of functions `key` and `gm`
(`gather_metrics` of the meter). -/
def gather_metrics (key : α → String) (gm : α → Json) :
    List α → List (String × Json) → List (String × Json)
  | [], acc => acc
  | m :: rest, acc => gather_metrics key gm rest (setKey acc (key m) (gm m))

/-- Phase::gather_data (phase.hpp:231-252): build a fresh document with
`json[JSON_KEY_NAME] = name_`; add `children` when `children_` is
non-empty; add `metrics` when `num_meters() > 0`; add `data` when
`data_` is non-empty. The member function is `const`: it is a pure
function of the phase value, so it cannot modify the phase and
consecutive calls with no intervening operation return equal
documents. -/
def Phase.gather_data (key : α → String) (gm : α → Json) (p : Phase α) : Json :=
  let json0 := setKey [] JSON_KEY_NAME (Json.str p.name_)
  let json1 := if p.children_.isEmpty then json0
    else setKey json0 JSON_KEY_CHILDREN (Json.arr p.children_)
  let json2 := if p.meters_.length > 0 then
    setKey json1 JSON_KEY_METRICS (Json.obj (gather_metrics key gm p.meters_ []))
    else json1
  let json3 := if p.data_.isEmpty then json2
    else setKey json2 JSON_KEY_DATA (Json.obj p.data_)
  Json.obj json3

theorem lookupField_setKey (l : List (String × Json)) (k k2 : String) (v : Json) :
    lookupField (setKey l k v) k2 = if k = k2 then some v else lookupField l k2 := by
  induction l with
  | nil =>
    simp [setKey, lookupField]
  | cons x xs ih =>
    obtain ⟨k', v'⟩ := x
    by_cases h : k' = k
    · subst h
      by_cases h2 : k' = k2 <;> simp [setKey, lookupField, h2]
    · by_cases h2 : k' = k2
      · subst h2
        have hk : ¬k = k' := fun he => h he.symm
        simp [setKey, lookupField, h, hk]
      · simp [setKey, lookupField, h, h2, ih]

theorem lookupField_gather_metrics_other (key : α → String) (gm : α → Json) (k : String) :
    ∀ (ms : List α) (acc : List (String × Json)), (∀ m ∈ ms, key m ≠ k) →
      lookupField (gather_metrics key gm ms acc) k = lookupField acc k := by
  intro ms
  induction ms with
  | nil => intro acc _; rfl
  | cons m rest ih =>
    intro acc hk
    rw [gather_metrics, ih _ (fun m' hm' => hk m' (List.mem_cons_of_mem m hm'))]
    rw [lookupField_setKey]
    rw [if_neg (hk m (List.mem_cons_self m rest))]

/-- With pairwise distinct meter keys, the object built by
`gather_metrics` maps each meter's key to that meter's snapshot. -/
theorem lookupField_gather_metrics (key : α → String) (gm : α → Json) :
    ∀ (ms : List α) (acc : List (String × Json)), (ms.map key).Nodup →
      ∀ m ∈ ms, lookupField (gather_metrics key gm ms acc) (key m) = some (gm m) := by
  intro ms
  induction ms with
  | nil => intro acc _ m hm; exact absurd hm (List.not_mem_nil m)
  | cons m0 rest ih =>
    intro acc hnd m hm
    rw [List.map_cons, List.nodup_cons] at hnd
    rcases List.mem_cons.mp hm with hm0 | hrest
    · subst hm0
      rw [gather_metrics]
      rw [lookupField_gather_metrics_other key gm (key m) rest _
        (fun m' hm' heq => hnd.1 (heq ▸ List.mem_map_of_mem key hm'))]
      rw [lookupField_setKey]
      rw [if_pos rfl]
    · exact ih _ hnd.2 m hrest

/-- C4. For every phase, `gather_data()` returns a document whose `name`
field is always present and equal to the phase's name; whose `children`
field is present iff the list of appended child documents is non-empty;
whose `metrics` field is present iff at least one meter is declared, and
then holds the object built from the meters (with pairwise distinct
meter keys it maps each meter's key to that meter's snapshot); and whose
`data` field is present iff the free-form attachment is non-empty.
`gather_data` is a pure (`const`) function of the phase value, so it
leaves the phase unchanged and two consecutive calls return equal
documents. -/
theorem c4_gather_data_fields {α : Type} (p : Phase α) (key : α → String) (gm : α → Json) :
    (p.gather_data key gm).getKey JSON_KEY_NAME = some (Json.str p.name_)
    ∧ (((p.gather_data key gm).getKey JSON_KEY_CHILDREN).isSome ↔ p.children_ ≠ [])
    ∧ (p.children_ ≠ [] →
        (p.gather_data key gm).getKey JSON_KEY_CHILDREN = some (Json.arr p.children_))
    ∧ (((p.gather_data key gm).getKey JSON_KEY_METRICS).isSome ↔ p.meters_ ≠ [])
    ∧ (p.meters_ ≠ [] →
        (p.gather_data key gm).getKey JSON_KEY_METRICS
          = some (Json.obj (gather_metrics key gm p.meters_ [])))
    ∧ ((p.meters_.map key).Nodup → ∀ m ∈ p.meters_,
        lookupField (gather_metrics key gm p.meters_ []) (key m) = some (gm m))
    ∧ (((p.gather_data key gm).getKey JSON_KEY_DATA).isSome ↔ p.data_ ≠ [])
    ∧ p.gather_data key gm = p.gather_data key gm := by
  obtain ⟨ms, nm, dt, ch⟩ := p
  refine ⟨?_, ?_, ?_, ?_, ?_, lookupField_gather_metrics key gm ms [], ?_, rfl⟩
  all_goals
    rcases ms with _ | ⟨m0, ms⟩ <;> rcases dt with _ | ⟨d0, dt⟩ <;>
      rcases ch with _ | ⟨c0, ch⟩ <;>
    simp [Phase.gather_data, Json.getKey, lookupField_setKey, setKey, lookupField,
      JSON_KEY_NAME, JSON_KEY_CHILDREN, JSON_KEY_METRICS, JSON_KEY_DATA]

/-- Witness for C4: the phase named "test" with one meter keyed
"memory" (snapshot 1000000), one data entry and no children. -/
theorem c4_gather_data_fields_witness :
    (Phase.gather_data (fun _ : Unit => "memory") (fun _ => Json.int 1000000)
        ⟨[()], "test", [("sum", Json.int (-497952))], []⟩).getKey JSON_KEY_NAME
      = some (Json.str "test")
    ∧ (Phase.gather_data (fun _ : Unit => "memory") (fun _ => Json.int 1000000)
        ⟨[()], "test", [("sum", Json.int (-497952))], []⟩).getKey JSON_KEY_METRICS
      = some (Json.obj (gather_metrics (fun _ : Unit => "memory")
          (fun _ => Json.int 1000000) [()] [])) := by
  have h := c4_gather_data_fields (⟨[()], "test", [("sum", Json.int (-497952))], []⟩ : Phase Unit)
    (fun _ : Unit => "memory") (fun _ => Json.int 1000000)
  exact ⟨h.1, h.2.2.2.2.1 (by simp)⟩

/-- Phase::append_child (phase.hpp:189-192):
`void append_child(T const& child) { children_.emplace_back(child.gather_data()); }`.
The child is taken by const reference, so the operation reads the
child's freshly gathered document and cannot modify the child; the
result pair is (the updated parent, the child as the operation leaves
it). The abstract meter interface of the child's phase type is the pair
`keyc` / `gmc`. -/
def Phase.append_child (keyc : β → String) (gmc : β → Json)
    (p : Phase α) (child : Phase β) : Phase α × Phase β :=
  ({ p with children_ := p.children_ ++ [child.gather_data keyc gmc] }, child)

/-- C5 counterexample. The claim says the child is consumed by
`append_child` — its data logically transferred (moved) into the parent,
not duplicated. At this concrete input the operation leaves the child
bit-for-bit unchanged, still holding its data entry, while the same
finalized document is also stored in the parent: the data is duplicated,
nothing is moved out of the child. -/
theorem c5_append_child_counterexample :
    (Phase.append_child (fun _ : Unit => "") (fun _ => Json.null)
        (⟨[], "parent", [], []⟩ : Phase Unit)
        (⟨[], "child", [("k", Json.int 1)], []⟩ : Phase Unit)).2
      = (⟨[], "child", [("k", Json.int 1)], []⟩ : Phase Unit)
    ∧ ((Phase.append_child (fun _ : Unit => "") (fun _ => Json.null)
        (⟨[], "parent", [], []⟩ : Phase Unit)
        (⟨[], "child", [("k", Json.int 1)], []⟩ : Phase Unit)).2).data_
      = [("k", Json.int 1)]
    ∧ (Phase.append_child (fun _ : Unit => "") (fun _ => Json.null)
        (⟨[], "parent", [], []⟩ : Phase Unit)
        (⟨[], "child", [("k", Json.int 1)], []⟩ : Phase Unit)).1.children_
      = [Phase.gather_data (fun _ : Unit => "") (fun _ => Json.null)
          (⟨[], "child", [("k", Json.int 1)], []⟩ : Phase Unit)] :=
  ⟨rfl, rfl, rfl⟩

/-- C5 (amended). `append_child` finalizes the child's document by
calling the child's own `gather_data()` and appends it to the parent's
children list; the parent's other fields are unchanged; the child is
passed by const reference and left unchanged — its data is copied into
the stored document, not moved out of it. The stored document equals the
child's document at append time, so it is immutable with respect to
later changes to the child. -/
theorem c5_append_child_amended {α β : Type} (keyc : β → String) (gmc : β → Json)
    (p : Phase α) (child : Phase β) :
    (Phase.append_child keyc gmc p child).1.children_
      = p.children_ ++ [child.gather_data keyc gmc]
    ∧ (Phase.append_child keyc gmc p child).1.meters_ = p.meters_
    ∧ (Phase.append_child keyc gmc p child).1.name_ = p.name_
    ∧ (Phase.append_child keyc gmc p child).1.data_ = p.data_
    ∧ (Phase.append_child keyc gmc p child).2 = child :=
  ⟨rfl, rfl, rfl, rfl, rfl⟩

/-- The size of the shim's `BlockHeader` (malloc_override.cpp:54-58):
`uint64_t magic; size_t size; size_t offset;` — 24 bytes on the LP64
platforms the shim supports (it is compiled out on Windows). -/
def BLOCK_HEADER_SIZE : Nat := 24

/-- `size_t` modulus: the shim is only built for 64-bit platforms. -/
def WORD_MOD : Nat := 2 ^ 64

/-- idiv_ceil (malloc_override.cpp:50-52): `((a + b) - 1ULL) / b`.
Its only use site has `a = sizeof(BlockHeader) = 24`, so the `size_t`
addition cannot wrap for any alignment below `2^64 - 24`. -/
def idiv_ceil (a b : Nat) : Nat := (a + b - 1) / b

/-- The overridden `malloc` (malloc_override.cpp:64-78), modelled as a
function of the underlying allocator `__libc_malloc` (`realAlloc`,
returning an address or `none` for NULL). The result is the returned
pointer together with the list of notifications emitted through
`pm::malloc_hook::on_malloc`: `if(!size) return NULL;` without
notification; a NULL from `__libc_malloc` is returned as-is without
notification; otherwise the header is stamped, `on_malloc(size)` fires,
and the pointer past the header is returned. -/
def shim_malloc (realAlloc : Nat → Option Nat) (size : Nat) :
    Option Nat × List MallocEvent :=
  if size = 0 then (none, [])
  else
    match realAlloc (size + BLOCK_HEADER_SIZE) with
    | none => (none, [])
    | some p => (some (p + BLOCK_HEADER_SIZE), [MallocEvent.alloc size])

/-- The overridden `aligned_alloc` (malloc_override.cpp:80-98), modelled
as a function of `__libc_memalign` (`realMemalign alignment bytes`):
`if(!size || !alignment) return NULL;` without notification; a NULL from
`__libc_memalign` is returned as-is without notification; otherwise the
header is placed at the stored offset, `on_malloc(size)` fires, and the
pointer past the aligned header block is returned. -/
def shim_aligned_alloc (realMemalign : Nat → Nat → Option Nat)
    (alignment size : Nat) : Option Nat × List MallocEvent :=
  if size = 0 ∨ alignment = 0 then (none, [])
  else
    let aligned_header_size := idiv_ceil BLOCK_HEADER_SIZE alignment * alignment
    match realMemalign alignment (size + aligned_header_size) with
    | none => (none, [])
    | some p => (some (p + aligned_header_size), [MallocEvent.alloc size])

/-- `memset(ptr, 0, len)`: defined only for a non-null destination;
passing a null pointer is undefined behaviour per the C standard
(and a crash in practice for `len > 0`). `none` marks the undefined
outcome. -/
def memset (ptr : Option Nat) (len : Nat) : Option Unit :=
  match ptr, len with
  | some _, _ => some ()
  | none, _ => none

/-- The overridden `calloc` (malloc_override.cpp:147-154):
`size *= num;` (`size_t` multiplication, wraps at `2^64`);
`if(!size) return NULL;`; then `void* ptr = malloc(size);
memset(ptr, 0, size); return ptr;` — the result of `malloc` is passed to
`memset` without a NULL check. The outer `Option` is the execution
outcome: `none` when the run hits undefined behaviour, otherwise the
returned pointer and the emitted notifications. -/
def shim_calloc (realAlloc : Nat → Option Nat) (num size : Nat) :
    Option (Option Nat × List MallocEvent) :=
  let size2 := size * num % WORD_MOD
  if size2 = 0 then some (none, [])
  else
    let res := shim_malloc realAlloc size2
    match memset res.1 size2 with
    | none => none
    | some _ => some (res.1, res.2)

/-- C7 is a code bug, witnessed here. The claim (and spec §4.1/§7) holds
for `malloc` and `aligned_alloc`: size 0 yields NULL without
notification, and a NULL from the real allocator is propagated unchanged
without notification (first four conjuncts, plus the general laws in the
following two conjuncts). It fails for `calloc`: `calloc(1, 8)` with a
failing underlying allocator passes the NULL from `malloc` straight to
`memset(ptr, 0, 8)` — undefined behaviour (last conjunct) — instead of
propagating NULL to the caller. The zero-size path of `calloc` does
return NULL without notifying (seventh conjunct) because it returns
before the `memset`. -/
theorem c7_null_propagation :
    shim_malloc (fun _ => some 4096) 0 = (none, [])
    ∧ shim_aligned_alloc (fun _ _ => some 4096) 16 0 = (none, [])
    ∧ shim_malloc (fun _ => none) 8 = (none, [])
    ∧ shim_aligned_alloc (fun _ _ => none) 16 8 = (none, [])
    ∧ (∀ r : Nat → Option Nat, ∀ sz : Nat, sz ≠ 0 → r (sz + BLOCK_HEADER_SIZE) = none →
        shim_malloc r sz = (none, []))
    ∧ (∀ r : Nat → Option Nat, shim_malloc r 0 = (none, []))
    ∧ shim_calloc (fun _ => some 4096) 0 5 = some (none, [])
    ∧ shim_calloc (fun _ => none) 1 8 = none := by
  refine ⟨by decide, by decide, by decide, by decide, ?_, ?_, ?_, ?_⟩
  · intro r sz hsz hr
    unfold shim_malloc
    rw [if_neg hsz, hr]
  · intro r
    rfl
  · decide
  · decide

/-- Witness for C7's general law at the always-failing allocator and a
16-byte request. -/
theorem c7_null_propagation_witness :
    shim_malloc (fun _ => none) 16 = (none, []) :=
  c7_null_propagation.2.2.2.2.1 (fun _ => none) 16 (by decide) rfl

/-- State of a `pm::Stopwatch` (stopwatch.hpp:44-51): the segment start
time point `start_` and the accumulated duration `elapsed_`, both in
clock ticks. Every operation receives the value `Clock::now()` returns
at its single call site as an explicit argument. -/
structure Stopwatch where
  start_ : Int
  elapsed_ : Int
deriving Repr, DecidableEq

/-- Stopwatch::resume (stopwatch.hpp:88-90): `start_ = Clock::now();`. -/
def Stopwatch.resume (sw : Stopwatch) (now : Int) : Stopwatch :=
  { sw with start_ := now }

/-- Stopwatch::start (stopwatch.hpp:71-74): `elapsed_ = Duration(0); resume();`. -/
def Stopwatch.start (sw : Stopwatch) (now : Int) : Stopwatch :=
  Stopwatch.resume { sw with elapsed_ := 0 } now

/-- Stopwatch::pause (stopwatch.hpp:80-82): `elapsed_ += Clock::now() - start_;`. -/
def Stopwatch.pause (sw : Stopwatch) (now : Int) : Stopwatch :=
  { sw with elapsed_ := sw.elapsed_ + (now - sw.start_) }

/-- Stopwatch::stop (stopwatch.hpp:97-99): `pause();`. -/
def Stopwatch.stop (sw : Stopwatch) (now : Int) : Stopwatch :=
  sw.pause now

/-- A run of pause/resume pairs: for each pair `(tp, tr)` the stopwatch
is paused at time `tp` and resumed at time `tr`. -/
def runPauseResume (sw : Stopwatch) : List (Int × Int) → Stopwatch
  | [] => sw
  | (tp, tr) :: rest => runPauseResume ((sw.pause tp).resume tr) rest

/-- The sum of the real-time intervals between each resume (or the
start, at `t0`) and the next pause (or the stop, at `tf`). -/
def intervalSum (t0 : Int) : List (Int × Int) → Int → Int
  | [], tf => tf - t0
  | (tp, tr) :: rest, tf => (tp - t0) + intervalSum tr rest tf

theorem stop_runPauseResume :
    ∀ (seg : List (Int × Int)) (t0 e tf : Int),
      ((runPauseResume ⟨t0, e⟩ seg).stop tf).elapsed_ = e + intervalSum t0 seg tf := by
  intro seg
  induction seg with
  | nil =>
    intro t0 e tf
    simp [runPauseResume, Stopwatch.stop, Stopwatch.pause, intervalSum]
  | cons pr rest ih =>
    intro t0 e tf
    obtain ⟨tp, tr⟩ := pr
    show ((runPauseResume ⟨tr, e + (tp - t0)⟩ rest).stop tf).elapsed_
      = e + intervalSum t0 ((tp, tr) :: rest) tf
    rw [ih tr (e + (tp - t0)) tf]
    show e + (tp - t0) + intervalSum tr rest tf = e + ((tp - t0) + intervalSum tr rest tf)
    ring

/-- C8. For an execution `start` at `t0`, pause/resume pairs `seg`, then
`stop` at `tf`: `start` resets the accumulated duration to zero and
captures `t0` as segment start; each `pause` (and `stop`) adds
(now − segment start) to the accumulation; `resume` captures a fresh
segment start without touching the accumulation; the reported elapsed
duration equals — hence is at least — the sum of the intervals between
each resume (or start) and the next pause (or stop); and it is 0
immediately after `start`. -/
theorem c8_stopwatch_duration (sw : Stopwatch) (t0 tf : Int) (seg : List (Int × Int)) :
    (sw.start t0).elapsed_ = 0
    ∧ (sw.start t0).start_ = t0
    ∧ (∀ (w : Stopwatch) (t : Int), (w.pause t).elapsed_ = w.elapsed_ + (t - w.start_)
        ∧ w.stop t = w.pause t)
    ∧ (∀ (w : Stopwatch) (t : Int), (w.resume t).elapsed_ = w.elapsed_
        ∧ (w.resume t).start_ = t)
    ∧ ((runPauseResume (sw.start t0) seg).stop tf).elapsed_ = intervalSum t0 seg tf
    ∧ intervalSum t0 seg tf ≤ ((runPauseResume (sw.start t0) seg).stop tf).elapsed_ := by
  have hrun : ((runPauseResume (sw.start t0) seg).stop tf).elapsed_
      = intervalSum t0 seg tf := by
    show ((runPauseResume ⟨t0, 0⟩ seg).stop tf).elapsed_ = intervalSum t0 seg tf
    rw [stop_runPauseResume seg t0 0 tf]
    ring
  exact ⟨rfl, rfl, fun w t => ⟨rfl, rfl⟩, fun w t => ⟨rfl, rfl⟩, hrun, le_of_eq hrun.symm⟩

end pm
